import Mathlib

set_option maxHeartbeats 1000000
set_option linter.unusedVariables false

/-!
Verification development for the `minute` single-end deduplication core
(`minute/se_dedup.py`): a shallow embedding of the alignment summarizer,
the two-pass position index, the UMI-based duplicate resolver and the
summary record, together with theorems settling the specified properties.

Python strings/bytes are modelled as `List Char`; machine integers are
`Nat`/`Int`; code that can raise an exception is modelled with `Option`
or `Except`.
-/

/-- The alignment-record fields consumed by the deduplication core
(mirrors the pysam `AlignedSegment` attributes that the code reads). -/
structure AlignedSegment where
  query_name : List Char
  reference_name : List Char
  reference_start : Nat
  next_reference_start : Int
  mapping_quality : Nat
  is_read1 : Bool
  is_read2 : Bool
  query_sequence : List Char
  query_alignment_qualities : List Nat
  is_unmapped : Bool
deriving DecidableEq, Repr

/-- `class AlignmentType(Enum)` with members `SINGLE` and `MULTI`. -/
inductive AlignmentType where
  | SINGLE
  | MULTI
deriving DecidableEq, Repr

/-- `AlignedSegmentSummary.get_name`: the Python slice
`read.query_name[:-umi_length - 1]`.  Python slicing clamps: when
`umi_length + 1 ≥ len(query_name)` the result is the empty string
(no exception is raised). -/
def get_name (query_name : List Char) (umi_length : Nat) : List Char :=
  query_name.take (query_name.length - (umi_length + 1))

/-- `AlignedSegmentSummary.get_umi`: the Python slice
`read.query_name[-umi_length:]`.  For `umi_length = 0` the slice
`s[-0:]` is all of `s`; for `umi_length > len(s)` it is also all of
`s` (clamped, no exception). -/
def get_umi (query_name : List Char) (umi_length : Nat) : List Char :=
  if umi_length = 0 then query_name
  else query_name.drop (query_name.length - umi_length)

/-- `AlignedSegmentSummary.get_mate`: 1 for R1, 2 for R2, -1 when the
record is flagged as neither (unpaired rescue by the aligner). -/
def get_mate (read : AlignedSegment) : Int :=
  if read.is_read1 then 1 else if read.is_read2 then 2 else -1

/-- `AlignedSegmentSummary.get_stub`: first `length` bases of the query
sequence for multimappers, empty otherwise. -/
def get_stub (read : AlignedSegment) (multimap_cutoff stub_length : Nat) : List Char :=
  if read.mapping_quality < multimap_cutoff then read.query_sequence.take stub_length
  else []

/-- `AlignedSegmentSummary.get_score`: sum of per-base alignment
quality values. -/
def get_score (read : AlignedSegment) : Nat :=
  read.query_alignment_qualities.sum

/-- `AlignedSegmentSummary.get_type`: `MULTI` iff the mapping quality is
below the multimap cutoff. -/
def get_type (read : AlignedSegment) (multimap_cutoff : Nat) : AlignmentType :=
  if read.mapping_quality < multimap_cutoff then AlignmentType.MULTI
  else AlignmentType.SINGLE

/-- `class AlignedSegmentSummary`: the compact per-record summary. -/
structure AlignedSegmentSummary where
  name : List Char
  umi : List Char
  mate : Int
  reference : List Char
  start : Nat
  mate_start : Int
  mapping_quality : Nat
  stub : List Char
  score : Nat
  type : AlignmentType
deriving DecidableEq, Repr

/-- `AlignedSegmentSummary.__init__`. -/
def summarize (read : AlignedSegment) (umi_length multimap_cutoff stub_length : Nat) :
    AlignedSegmentSummary where
  name := get_name read.query_name umi_length
  umi := get_umi read.query_name umi_length
  mate := get_mate read
  reference := read.reference_name
  start := read.reference_start
  mate_start := read.next_reference_start
  mapping_quality := read.mapping_quality
  stub := get_stub read multimap_cutoff stub_length
  score := get_score read
  type := get_type read multimap_cutoff

/-- `get_mapped_segments`: keep only mapped records, in order. -/
def get_mapped_segments (bam : List AlignedSegment) : List AlignedSegment :=
  bam.filter (fun read => !read.is_unmapped)

/-- A position-keyed index: reference name to start position to ordered
bucket of summaries (insertion-ordered association lists modelling the
Python `defaultdict(lambda: defaultdict(list))`). -/
abbrev PosIdx := List (List Char × List (Nat × List AlignedSegmentSummary))

/-- Append a summary to the bucket for `pos`, creating the bucket at the
end on first use (insertion-order semantics of a Python dict). -/
def addToPositions : List (Nat × List AlignedSegmentSummary) → Nat → AlignedSegmentSummary →
    List (Nat × List AlignedSegmentSummary)
  | [], pos, a => [(pos, [a])]
  | (p, lst) :: rest, pos, a =>
      if p = pos then (p, lst ++ [a]) :: rest
      else (p, lst) :: addToPositions rest pos a

/-- Append a summary to `idx[ref][pos]`. -/
def addToPosIdx : PosIdx → List Char → Nat → AlignedSegmentSummary → PosIdx
  | [], ref, pos, a => [(ref, addToPositions [] pos a)]
  | (r, ps) :: rest, ref, pos, a =>
      if r = ref then (r, addToPositions ps pos a) :: rest
      else (r, ps) :: addToPosIdx rest ref pos a

/-- All summaries stored in a positions map, in bucket order. -/
def sumsOfPositions (ps : List (Nat × List AlignedSegmentSummary)) : List AlignedSegmentSummary :=
  ps.flatMap (fun pe => pe.2)

/-- All summaries stored in a position index. -/
def sumsOfPosIdx (idx : PosIdx) : List AlignedSegmentSummary :=
  idx.flatMap (fun re => sumsOfPositions re.2)

/-- Fragment names of all summaries stored in a position index. -/
def posIdxNames (idx : PosIdx) : List (List Char) :=
  (sumsOfPosIdx idx).map (fun a => a.name)

/-- Mutable state of `AlignmentIndex._index_first_mates`. -/
structure Pass1State where
  r1 : PosIdx
  multi : List AlignedSegmentSummary
  seen : List (List Char)
deriving DecidableEq, Repr

/-- One loop iteration of `AlignmentIndex._index_first_mates`. -/
def pass1Step (umi_length multimap_cutoff stub_length : Nat) (st : Pass1State)
    (read : AlignedSegment) : Pass1State :=
  let aln := summarize read umi_length multimap_cutoff stub_length
  if aln.mate = 1 then
    if aln.type = AlignmentType.SINGLE then
      { r1 := addToPosIdx st.r1 read.reference_name read.reference_start aln
        multi := st.multi
        seen := st.seen ++ [aln.name] }
    else
      { r1 := st.r1
        multi := st.multi ++ [aln]
        seen := st.seen ++ [aln.name] }
  else st

/-- `AlignmentIndex._index_first_mates`: fold pass 1 over the mapped
records. -/
def pass1 (umi_length multimap_cutoff stub_length : Nat) :
    Pass1State → List AlignedSegment → Pass1State
  | st, [] => st
  | st, read :: rest =>
      pass1 umi_length multimap_cutoff stub_length
        (pass1Step umi_length multimap_cutoff stub_length st read) rest

/-- Mutable state of `AlignmentIndex._index_second_mates`. -/
structure Pass2State where
  r2 : PosIdx
  multi : List AlignedSegmentSummary
  second_ids : List (List Char)
deriving DecidableEq, Repr

/-- One loop iteration of `AlignmentIndex._index_second_mates`. -/
def pass2Step (umi_length multimap_cutoff stub_length : Nat) (seen : List (List Char))
    (st : Pass2State) (read : AlignedSegment) : Pass2State :=
  let aln := summarize read umi_length multimap_cutoff stub_length
  if aln.mate = 2 ∧ aln.name ∉ seen then
    if aln.type = AlignmentType.SINGLE then
      { r2 := addToPosIdx st.r2 read.reference_name read.reference_start aln
        multi := st.multi
        second_ids := st.second_ids ++ [aln.name] }
    else
      { r2 := st.r2
        multi := st.multi ++ [aln]
        second_ids := st.second_ids ++ [aln.name] }
  else st

/-- `AlignmentIndex._index_second_mates`: fold pass 2 over the mapped
records, with the pass-1 seen set fixed. -/
def pass2 (umi_length multimap_cutoff stub_length : Nat) (seen : List (List Char)) :
    Pass2State → List AlignedSegment → Pass2State
  | st, [] => st
  | st, read :: rest =>
      pass2 umi_length multimap_cutoff stub_length seen
        (pass2Step umi_length multimap_cutoff stub_length seen st read) rest

/-- `class AlignmentIndex` after construction. -/
structure AlignmentIndex where
  r1_reads_by_position : PosIdx
  r2_only_reads_by_position : PosIdx
  multimappers : List AlignedSegmentSummary
  r1_counts : Nat
  r2_counts : Nat
  total : Nat
deriving DecidableEq, Repr

/-- `AlignmentIndex.__init__`: run both passes over the mapped records;
`r1_counts`/`r2_counts` are the cardinalities of the two seen-name sets
(`len(set(...))` in the source). -/
def buildAlignmentIndex (bam : List AlignedSegment)
    (umi_length multimap_cutoff stub_length : Nat) : AlignmentIndex :=
  let mapped := get_mapped_segments bam
  let s1 := pass1 umi_length multimap_cutoff stub_length ⟨[], [], []⟩ mapped
  let s2 := pass2 umi_length multimap_cutoff stub_length s1.seen ⟨[], s1.multi, []⟩ mapped
  let r1c := s1.seen.dedup.length
  let r2c := s2.second_ids.dedup.length
  { r1_reads_by_position := s1.r1
    r2_only_reads_by_position := s2.r2
    multimappers := s2.multi
    r1_counts := r1c
    r2_counts := r2c
    total := r1c + r2c }

/-- Keys of a `defaultdict(int)` filled in input order, skipping keys
already collected in `seen`: first-occurrence order. -/
def firstOccurrencesAux : List (List Char) → List (List Char) → List (List Char)
  | [], _ => []
  | a :: l, seen =>
      if a ∈ seen then firstOccurrencesAux l seen
      else a :: firstOccurrencesAux l (a :: seen)

/-- The keys of `count_sequences`, in first-occurrence order. -/
def firstOccurrences (l : List (List Char)) : List (List Char) :=
  firstOccurrencesAux l []

/-- `count_sequences` as an ordered association list. -/
def count_sequences (seq_list : List (List Char)) : List (List Char × Nat) :=
  (firstOccurrences seq_list).map (fun u => (u, seq_list.count u))

/-- Hamming distance between two character lists (length difference
counts as mismatches). -/
def hamming : List Char → List Char → Nat
  | [], [] => 0
  | [], b :: bs => (b :: bs).length
  | a :: as, [] => (a :: as).length
  | a :: as, b :: bs => (if a = b then 0 else 1) + hamming as bs

/-- Modelled from the spec: the directional adjacency test of the
`umi_tools` `UMIClusterer` (the clusterer itself is an external
dependency, not part of this repository): an edge from `a` to `b`
requires `hamming(a,b) ≤ t` and `count(a) ≥ 2*count(b) − 1`,
written overflow-free over `Nat` as `count(a) + 1 ≥ 2*count(b)`. -/
def dirEdge (t : Nat) (a b : List Char × Nat) : Bool :=
  decide (hamming a.1 b.1 ≤ t) && decide (a.2 + 1 ≥ 2 * b.2)

/-- Modelled from the spec: one expansion step of directional cluster
growth — absorb every node of `ns` that is not yet in the cluster and
has a directional edge from some cluster member. -/
def growOnce (t : Nat) (ns : List (List Char × Nat)) (cl : List (List Char × Nat)) :
    List (List Char × Nat) :=
  cl ++ ns.filter (fun b => decide (b ∉ cl) && cl.any (fun a => dirEdge t a b))

/-- Modelled from the spec: all nodes of `ns` reachable from `seed`
via directional edges (iterated expansion; `ns.length` rounds reach
the fixpoint). -/
def reach (t : Nat) (ns : List (List Char × Nat)) (seed : List Char × Nat) :
    List (List Char × Nat) :=
  (growOnce t ns)^[ns.length] [seed]

/-- Modelled from the spec: the remaining unclustered UMI with the
highest count (first maximum on ties). -/
def pickMax (n : List Char × Nat) (rest : List (List Char × Nat)) : List Char × Nat :=
  rest.foldl (fun b r => if r.2 > b.2 then r else b) n

/-- Modelled from the spec: the main loop of the `umi_tools` directional
clusterer — repeatedly seed a cluster at the highest-count unclustered
UMI, absorb everything reachable via directional edges, and report the
cluster with its defining UMI first.  `fuel` bounds the recursion; the
caller supplies `nodes.length`, which suffices because every round
removes at least the seed. -/
def clusterLoop (t : Nat) : Nat → List (List Char × Nat) → List (List (List Char))
  | 0, _ => []
  | _, [] => []
  | fuel + 1, n :: rest =>
      let seed := pickMax n rest
      let cl := reach t (n :: rest) seed
      let remaining := (n :: rest).filter (fun x => decide (x ∉ cl))
      (seed.1 :: (cl.filter (fun x => decide (x ≠ seed))).map Prod.fst) ::
        clusterLoop t fuel remaining

/-- Modelled from the spec: `UMIClusterer(cluster_method="directional")`
applied to a counts mapping. -/
def umiClusterer (t : Nat) (nodes : List (List Char × Nat)) : List (List (List Char)) :=
  clusterLoop t nodes.length nodes

/-- `FirstMateDeduplicator.cluster_sequences`: count the sequences and
run the clusterer, returning `[]` on empty input. -/
def cluster_sequences (seq_list : List (List Char)) (mismatches : Nat) :
    List (List (List Char)) :=
  if seq_list.length > 0 then umiClusterer mismatches (count_sequences seq_list)
  else []

/-- `FirstMateDeduplicator.filter_by_attribute` at its only call site
(`attribute = "umi"`, `allowed = c[0]`): Python evaluates
`r.umi in allowed` where `allowed` is a single bytes object, i.e. a
contiguous-substring test. -/
def filter_by_attribute (reads : List AlignedSegmentSummary) (allowed : List Char) :
    List AlignedSegmentSummary :=
  reads.filter (fun r => decide (r.umi <:+: allowed))

/-- `FirstMateDeduplicator.pick_best` split as first element plus rest:
left fold keeping the first summary of maximal score. -/
def pickBest (hd : AlignedSegmentSummary) (tl : List AlignedSegmentSummary) :
    AlignedSegmentSummary :=
  tl.foldl (fun b r => if r.score > b.score then r else b) hd

/-- The survivor contributed by one cluster in
`FirstMateDeduplicator.mark_duplicates_by_umi`: filter the candidates
by the cluster representative `c[0]`, then `pick_best` when more than
one remains, else the single element.  `none` models the `IndexError`
Python would raise on an empty cluster or an empty filtered subset. -/
def survivorOfCluster (read_list : List AlignedSegmentSummary) (c : List (List Char)) :
    Option AlignedSegmentSummary :=
  match c with
  | [] => none
  | rep :: _ =>
      match filter_by_attribute read_list rep with
      | [] => none
      | u :: us => some (if (u :: us).length > 1 then pickBest u us else u)

/-- The `unique_reads` list accumulated over all clusters in
`mark_duplicates_by_umi`. -/
def survivorsOfClusters (read_list : List AlignedSegmentSummary) :
    List (List (List Char)) → Option (List AlignedSegmentSummary)
  | [] => some []
  | c :: cs =>
      match survivorOfCluster read_list c, survivorsOfClusters read_list cs with
      | some s, some ss => some (s :: ss)
      | _, _ => none

/-- `FirstMateDeduplicator.mark_duplicates_by_umi`: cluster the bucket's
UMIs, pick one survivor per cluster, and report the name of every
candidate whose name is not a survivor name. -/
def mark_duplicates_by_umi (read_list : List AlignedSegmentSummary)
    (umi_mismatches : Nat) : Option (List (List Char)) :=
  let clusters := cluster_sequences (read_list.map (fun r => r.umi)) umi_mismatches
  match survivorsOfClusters read_list clusters with
  | none => none
  | some unique_reads =>
      let s := unique_reads.map (fun r => r.name)
      some ((read_list.filter (fun r => decide (r.name ∉ s))).map (fun r => r.name))

/-- Inner loop of `FirstMateDeduplicator._find_duplicate_ids` over the
position buckets of one reference. -/
def findDupsPositions (umi_mismatches : Nat) :
    List (Nat × List AlignedSegmentSummary) → Option (List (List Char))
  | [] => some []
  | (_, dup_candidates) :: rest =>
      let d := if dup_candidates.length > 1
               then mark_duplicates_by_umi dup_candidates umi_mismatches
               else some []
      match d, findDupsPositions umi_mismatches rest with
      | some d, some ds => some (d ++ ds)
      | _, _ => none

/-- `FirstMateDeduplicator._find_duplicate_ids`: collect duplicate names
over every reference and position bucket with more than one candidate. -/
def find_duplicate_ids (aln_index : PosIdx) (umi_mismatches : Nat) :
    Option (List (List Char))
  := match aln_index with
  | [] => some []
  | (_, ps) :: rest =>
      match findDupsPositions umi_mismatches ps, find_duplicate_ids rest umi_mismatches with
      | some d, some ds => some (d ++ ds)
      | _, _ => none

/-- `@dataclass DedupSummary`. -/
structure DedupSummary where
  total : Nat
  total_dups : Nat
  r1_dups : Nat
  r2_only_dups : Nat
  multi_dups : Nat
deriving DecidableEq, Repr

/-- Python exceptions surfaced by the modelled code. -/
inductive PyExn where
  | zeroDivisionError
deriving DecidableEq, Repr

/-- `DedupSummary.fraction_duplication`: `total_dups / total`, raising
`ZeroDivisionError` when `total == 0` (Python true division). -/
def fraction_duplication (s : DedupSummary) : Except PyExn Rat :=
  if s.total = 0 then Except.error PyExn.zeroDivisionError
  else Except.ok ((s.total_dups : Rat) / (s.total : Rat))

/-- `FirstMateDeduplicator.deduplicate`: build the index, resolve
duplicates in the R1 and R2-only indexes, and aggregate.  The unused
`seq_mismatches` configuration is kept for fidelity. -/
def deduplicate (umi_length multimap_cutoff stub_length umi_mismatches seq_mismatches : Nat)
    (src_bam : List AlignedSegment) : Option DedupSummary :=
  let index := buildAlignmentIndex src_bam umi_length multimap_cutoff stub_length
  match find_duplicate_ids index.r1_reads_by_position umi_mismatches,
        find_duplicate_ids index.r2_only_reads_by_position umi_mismatches with
  | some r1_dups, some r2_dups =>
      some { total := index.total
             total_dups := (r1_dups ++ r2_dups).toFinset.card
             r1_dups := r1_dups.length
             r2_only_dups := r2_dups.length
             multi_dups := 0 }
  | _, _ => none

/-- Example bucket candidate: UMI `AAAA`, score 10. -/
def exC1a : AlignedSegmentSummary :=
  { name := ['a'], umi := ['A','A','A','A'], mate := 1, reference := ['c'], start := 0,
    mate_start := 0, mapping_quality := 60, stub := [], score := 10,
    type := AlignmentType.SINGLE }

/-- Example bucket candidate: UMI `AAAT` (Hamming distance 1 from
`AAAA`), strictly larger score 99. -/
def exC1b : AlignedSegmentSummary :=
  { name := ['b'], umi := ['A','A','A','T'], mate := 1, reference := ['c'], start := 0,
    mate_start := 0, mapping_quality := 60, stub := [], score := 99,
    type := AlignmentType.SINGLE }

/-- Example mapped record flagged neither first- nor second-in-pair
(UNPAIRED), with mapping quality above the cutoff. -/
def exC2rec : AlignedSegment :=
  { query_name := ['n','-','A','A'], reference_name := ['c'], reference_start := 0,
    next_reference_start := 0, mapping_quality := 60, is_read1 := false, is_read2 := false,
    query_sequence := ['A','C','G','T'], query_alignment_qualities := [30, 30],
    is_unmapped := false }

/-- Example mapped first-mate record with mapping quality below the
cutoff (a multimapper). -/
def exC2w : AlignedSegment :=
  { query_name := ['w','-','A','A'], reference_name := ['c'], reference_start := 0,
    next_reference_start := 0, mapping_quality := 0, is_read1 := true, is_read2 := false,
    query_sequence := ['A','C','G','T'], query_alignment_qualities := [30, 30],
    is_unmapped := false }

/-- Example first-mate record, multi-mapping (quality 0 below cutoff). -/
def exC3rec1 : AlignedSegment :=
  { query_name := ['n','-','A','A'], reference_name := ['c'], reference_start := 0,
    next_reference_start := 0, mapping_quality := 0, is_read1 := true, is_read2 := false,
    query_sequence := ['A','C','G','T'], query_alignment_qualities := [30, 30],
    is_unmapped := false }

/-- Example second-mate record of the same fragment, uniquely mapped. -/
def exC3rec2 : AlignedSegment :=
  { query_name := ['n','-','A','A'], reference_name := ['c'], reference_start := 0,
    next_reference_start := 0, mapping_quality := 60, is_read1 := false, is_read2 := true,
    query_sequence := ['A','C','G','T'], query_alignment_qualities := [30, 30],
    is_unmapped := false }

/-- Example record with a malformed query name: two characters, no
UMI delimiter, shorter than the configured UMI length 6. -/
def exC4rec : AlignedSegment :=
  { query_name := ['a','b'], reference_name := ['c'], reference_start := 0,
    next_reference_start := 0, mapping_quality := 60, is_read1 := true, is_read2 := false,
    query_sequence := ['A','C','G','T'], query_alignment_qualities := [30, 30],
    is_unmapped := false }

/-- Example uniquely-mapped first-mate record of fragment `f`. -/
def exC6recA : AlignedSegment :=
  { query_name := ['f','-','A','A'], reference_name := ['c'], reference_start := 0,
    next_reference_start := 0, mapping_quality := 60, is_read1 := true, is_read2 := false,
    query_sequence := ['A','C','G','T'], query_alignment_qualities := [30, 30],
    is_unmapped := false }

/-- Example multi-mapping first-mate record of the same fragment `f`
(e.g. a secondary alignment of the same template). -/
def exC6recB : AlignedSegment :=
  { query_name := ['f','-','A','A'], reference_name := ['c'], reference_start := 0,
    next_reference_start := 0, mapping_quality := 0, is_read1 := true, is_read2 := false,
    query_sequence := ['A','C','G','T'], query_alignment_qualities := [30, 30],
    is_unmapped := false }

/-- Example bucket candidate of fragment `x`, score 5. -/
def exC10a : AlignedSegmentSummary :=
  { name := ['x'], umi := ['A','A'], mate := 1, reference := ['c'], start := 0,
    mate_start := 0, mapping_quality := 60, stub := [], score := 5,
    type := AlignmentType.SINGLE }

/-- Example bucket candidate sharing fragment name `x`, score 9. -/
def exC10b : AlignedSegmentSummary :=
  { name := ['x'], umi := ['A','A'], mate := 1, reference := ['c'], start := 0,
    mate_start := 0, mapping_quality := 60, stub := [], score := 9,
    type := AlignmentType.SINGLE }

/-- Example bucket candidate of fragment `y`, score 1. -/
def exC10c : AlignedSegmentSummary :=
  { name := ['y'], umi := ['A','A'], mate := 1, reference := ['c'], start := 0,
    mate_start := 0, mapping_quality := 60, stub := [], score := 1,
    type := AlignmentType.SINGLE }

/-- `s` is the first maximum-score element of `l`: everything before it
scores strictly less, everything after scores no more.  This is the
"first maximum wins" tie-break policy. -/
def IsFirstMax (s : AlignedSegmentSummary) (l : List AlignedSegmentSummary) : Prop :=
  ∃ l1 l2, l = l1 ++ s :: l2 ∧ (∀ r ∈ l1, r.score < s.score) ∧ (∀ r ∈ l2, r.score ≤ s.score)

theorem pickBest_isFirstMax :
    ∀ (tl : List AlignedSegmentSummary) (hd : AlignedSegmentSummary),
      IsFirstMax (pickBest hd tl) (hd :: tl) := by
  intro tl
  induction tl with
  | nil =>
      intro hd
      exact ⟨[], [], rfl, by simp, by simp⟩
  | cons r rs ih =>
      intro hd
      have hstep : pickBest hd (r :: rs) = pickBest (if r.score > hd.score then r else hd) rs := rfl
      by_cases hc : r.score > hd.score
      · rw [hstep, if_pos hc]
        obtain ⟨l1, l2, hdec, hlt, hle⟩ := ih r
        generalize hgen : pickBest r rs = b at hdec hlt hle ⊢
        have hrb : r.score ≤ b.score := by
          cases l1 with
          | nil =>
              simp only [List.nil_append] at hdec
              injection hdec with h1 _
              rw [h1]
          | cons a l1t =>
              rw [List.cons_append] at hdec
              injection hdec with h1 _
              exact Nat.le_of_lt (h1 ▸ hlt a (by simp))
        refine ⟨hd :: l1, l2, by rw [List.cons_append, ← hdec], ?_, hle⟩
        intro x hx
        rcases List.mem_cons.mp hx with hx | hx
        · exact hx ▸ Nat.lt_of_lt_of_le hc hrb
        · exact hlt x hx
      · rw [hstep, if_neg hc]
        have hc' : r.score ≤ hd.score := Nat.le_of_not_lt hc
        obtain ⟨l1, l2, hdec, hlt, hle⟩ := ih hd
        generalize hgen : pickBest hd rs = b at hdec hlt hle ⊢
        cases l1 with
        | nil =>
            simp only [List.nil_append] at hdec
            injection hdec with h1 h2
            refine ⟨[], r :: rs, by rw [List.nil_append, ← h1], by simp, ?_⟩
            intro x hx
            rcases List.mem_cons.mp hx with hx | hx
            · rw [← h1]
              exact hx ▸ hc'
            · exact hle x (h2 ▸ hx)
        | cons a l1t =>
            rw [List.cons_append] at hdec
            injection hdec with h1 h2
            have hhd : hd.score < b.score := h1 ▸ hlt a (by simp)
            refine ⟨hd :: r :: l1t, l2, by rw [h2]; simp, ?_, hle⟩
            intro x hx
            rcases List.mem_cons.mp hx with hx | hx
            · exact hx ▸ hhd
            · rcases List.mem_cons.mp hx with hx' | hx'
              · exact hx' ▸ Nat.lt_of_le_of_lt hc' hhd
              · exact hlt x (by simp [hx'])

theorem pickBest_mem (hd : AlignedSegmentSummary) (tl : List AlignedSegmentSummary) :
    pickBest hd tl ∈ hd :: tl := by
  obtain ⟨l1, l2, hdec, -, -⟩ := pickBest_isFirstMax tl hd
  rw [hdec]
  exact List.mem_append.mpr (Or.inr (List.mem_cons_self _ _))

theorem length_filter_lt_of_mem {α : Type} {p : α → Bool} :
    ∀ {l : List α} {x : α}, x ∈ l → p x = false → (l.filter p).length < l.length := by
  intro l
  induction l with
  | nil => intro x hx; simp at hx
  | cons a l ih =>
      intro x hx hp
      rcases List.mem_cons.mp hx with hx | hx
      · subst hx
        rw [List.filter_cons, hp]
        simp only [List.length_cons]
        exact Nat.lt_succ_of_le (List.length_filter_le _ _)
      · rw [List.filter_cons]
        cases hpa : p a with
        | false =>
            simp only [List.length_cons]
            exact Nat.lt_succ_of_lt (ih hx hp)
        | true =>
            simp only [List.length_cons]
            exact Nat.succ_lt_succ (ih hx hp)

theorem mem_firstOccurrencesAux :
    ∀ (l seen : List (List Char)) (x : List Char),
      x ∈ firstOccurrencesAux l seen ↔ x ∈ l ∧ x ∉ seen := by
  intro l
  induction l with
  | nil => intro seen x; simp [firstOccurrencesAux]
  | cons a l ih =>
      intro seen x
      by_cases ha : a ∈ seen
      · rw [firstOccurrencesAux, if_pos ha, ih]
        constructor
        · rintro ⟨hx, hns⟩
          exact ⟨List.mem_cons.mpr (Or.inr hx), hns⟩
        · rintro ⟨hx, hns⟩
          rcases List.mem_cons.mp hx with hx | hx
          · exact absurd (hx ▸ ha) hns
          · exact ⟨hx, hns⟩
      · rw [firstOccurrencesAux, if_neg ha]
        by_cases hxa : x = a
        · subst hxa
          simp [ha]
        · simp only [List.mem_cons, hxa, false_or]
          rw [ih]
          simp [List.mem_cons, hxa]

theorem mem_firstOccurrences : ∀ (l : List (List Char)) (x : List Char),
    x ∈ firstOccurrences l ↔ x ∈ l := by
  intro l x
  rw [firstOccurrences, mem_firstOccurrencesAux]
  simp

theorem nodup_firstOccurrencesAux :
    ∀ (l seen : List (List Char)), (firstOccurrencesAux l seen).Nodup := by
  intro l
  induction l with
  | nil => intro seen; simp [firstOccurrencesAux]
  | cons a l ih =>
      intro seen
      by_cases ha : a ∈ seen
      · rw [firstOccurrencesAux, if_pos ha]
        exact ih seen
      · rw [firstOccurrencesAux, if_neg ha]
        refine List.nodup_cons.mpr ⟨?_, ih (a :: seen)⟩
        intro hmem
        have := (mem_firstOccurrencesAux l (a :: seen) a).mp hmem
        simp at this

theorem nodup_firstOccurrences : ∀ (l : List (List Char)), (firstOccurrences l).Nodup := by
  intro l
  exact nodup_firstOccurrencesAux l []

theorem count_sequences_keys (seqs : List (List Char)) :
    (count_sequences seqs).map Prod.fst = firstOccurrences seqs := by
  simp [count_sequences, List.map_map, Function.comp_def]

theorem pickMax_mem : ∀ (rest : List (List Char × Nat)) (n : List Char × Nat),
    pickMax n rest ∈ n :: rest := by
  intro rest
  induction rest with
  | nil => intro n; simp [pickMax]
  | cons r rs ih =>
      intro n
      have hstep : pickMax n (r :: rs) = pickMax (if r.2 > n.2 then r else n) rs := rfl
      rw [hstep]
      rcases List.mem_cons.mp (ih (if r.2 > n.2 then r else n)) with h | h
      · rw [h]
        by_cases hc : r.2 > n.2
        · simp [hc]
        · simp [hc]
      · simp [List.mem_cons.mpr (Or.inr (List.mem_cons.mpr (Or.inr h)))]

theorem subset_growOnce (t : Nat) (ns cl : List (List Char × Nat)) :
    cl ⊆ growOnce t ns cl := by
  intro x hx
  exact List.mem_append.mpr (Or.inl hx)

theorem mem_iterate_growOnce (t : Nat) (ns : List (List Char × Nat)) :
    ∀ (k : Nat) (cl : List (List Char × Nat)) (x : List Char × Nat),
      x ∈ cl → x ∈ (growOnce t ns)^[k] cl := by
  intro k
  induction k with
  | zero => intro cl x hx; simpa using hx
  | succ k ih =>
      intro cl x hx
      rw [Function.iterate_succ_apply]
      exact ih _ x (subset_growOnce t ns cl hx)

theorem seed_mem_reach (t : Nat) (ns : List (List Char × Nat)) (seed : List Char × Nat) :
    seed ∈ reach t ns seed :=
  mem_iterate_growOnce t ns ns.length [seed] seed (by simp)

theorem growOnce_subset (t : Nat) (ns cl : List (List Char × Nat))
    (h : cl ⊆ ns) : growOnce t ns cl ⊆ ns := by
  intro x hx
  rcases List.mem_append.mp hx with hx | hx
  · exact h hx
  · exact List.mem_of_mem_filter hx

theorem reach_subset (t : Nat) (ns : List (List Char × Nat)) (seed : List Char × Nat)
    (h : seed ∈ ns) : reach t ns seed ⊆ ns := by
  have key : ∀ (k : Nat) (cl : List (List Char × Nat)), cl ⊆ ns → (growOnce t ns)^[k] cl ⊆ ns := by
    intro k
    induction k with
    | zero => intro cl hcl; simpa using hcl
    | succ k ih =>
        intro cl hcl
        rw [Function.iterate_succ_apply]
        exact ih _ (growOnce_subset t ns cl hcl)
  exact key ns.length [seed] (by simpa using h)

theorem growOnce_nodup (t : Nat) (ns cl : List (List Char × Nat))
    (hns : ns.Nodup) (hcl : cl.Nodup) : (growOnce t ns cl).Nodup := by
  refine List.Nodup.append hcl (hns.filter _) ?_
  intro x hx hx'
  have := List.of_mem_filter hx'
  simp only [Bool.and_eq_true, decide_eq_true_eq] at this
  exact this.1 hx

theorem reach_nodup (t : Nat) (ns : List (List Char × Nat)) (seed : List Char × Nat)
    (hns : ns.Nodup) : (reach t ns seed).Nodup := by
  have key : ∀ (k : Nat) (cl : List (List Char × Nat)), cl.Nodup → ((growOnce t ns)^[k] cl).Nodup := by
    intro k
    induction k with
    | zero => intro cl hcl; simpa using hcl
    | succ k ih =>
        intro cl hcl
        rw [Function.iterate_succ_apply]
        exact ih _ (growOnce_nodup t ns cl hns hcl)
  exact key ns.length [seed] (by simp)

theorem clusterLoop_head_mem :
    ∀ (fuel t : Nat) (ns : List (List Char × Nat)) (c : List (List Char)),
      c ∈ clusterLoop t fuel ns →
      ∃ rep tail, c = rep :: tail ∧ rep ∈ ns.map Prod.fst := by
  intro fuel
  induction fuel with
  | zero => intro t ns c hc; simp [clusterLoop] at hc
  | succ fuel ih =>
      intro t ns c hc
      cases ns with
      | nil => simp [clusterLoop] at hc
      | cons n rest =>
          have hunfold : clusterLoop t (fuel + 1) (n :: rest) =
              ((pickMax n rest).1 :: ((reach t (n :: rest) (pickMax n rest)).filter
                  (fun x => decide (x ≠ pickMax n rest))).map Prod.fst) ::
                clusterLoop t fuel ((n :: rest).filter
                  (fun x => decide (x ∉ reach t (n :: rest) (pickMax n rest)))) := rfl
          rw [hunfold] at hc
          rcases List.mem_cons.mp hc with hc | hc
          · refine ⟨(pickMax n rest).1, _, hc, ?_⟩
            exact List.mem_map.mpr ⟨pickMax n rest, pickMax_mem rest n, rfl⟩
          · obtain ⟨rep, tail, hcrt, hrep⟩ := ih t _ c hc
            refine ⟨rep, tail, hcrt, ?_⟩
            obtain ⟨y, hy, hyu⟩ := List.mem_map.mp hrep
            exact List.mem_map.mpr ⟨y, List.mem_of_mem_filter hy, hyu⟩

theorem clusterLoop_partition :
    ∀ (fuel t : Nat) (ns : List (List Char × Nat)),
      ns.length ≤ fuel → (ns.map Prod.fst).Nodup →
      (∀ u, u ∈ (clusterLoop t fuel ns).flatMap id ↔ u ∈ ns.map Prod.fst) ∧
      ((clusterLoop t fuel ns).flatMap id).Nodup := by
  intro fuel
  induction fuel with
  | zero =>
      intro t ns hlen _
      have hns : ns = [] := List.eq_nil_of_length_eq_zero (Nat.le_zero.mp hlen)
      subst hns
      simp [clusterLoop]
  | succ fuel ih =>
      intro t ns hlen hnd
      cases ns with
      | nil => simp [clusterLoop]
      | cons n rest =>
          have hunfold : clusterLoop t (fuel + 1) (n :: rest) =
              ((pickMax n rest).1 :: ((reach t (n :: rest) (pickMax n rest)).filter
                  (fun x => decide (x ≠ pickMax n rest))).map Prod.fst) ::
                clusterLoop t fuel ((n :: rest).filter
                  (fun x => decide (x ∉ reach t (n :: rest) (pickMax n rest)))) := rfl
          set seed := pickMax n rest with hseeddef
          set cl := reach t (n :: rest) seed with hcldef
          set remaining := (n :: rest).filter (fun x => decide (x ∉ cl)) with hremdef
          set emitted := seed.1 :: (cl.filter (fun x => decide (x ≠ seed))).map Prod.fst
            with hemitdef
          have hseedNS : seed ∈ n :: rest := pickMax_mem rest n
          have hseedcl : seed ∈ cl := seed_mem_reach t (n :: rest) seed
          have hclNS : cl ⊆ n :: rest := reach_subset t (n :: rest) seed hseedNS
          have hNSnd : (n :: rest).Nodup := hnd.of_map
          have hclnd : cl.Nodup := reach_nodup t (n :: rest) seed hNSnd
          have hinj : ∀ x ∈ n :: rest, ∀ y ∈ n :: rest, x.1 = y.1 → x = y :=
            List.inj_on_of_nodup_map hnd
          have hremlen : remaining.length ≤ fuel := by
            have hlt : remaining.length < (n :: rest).length :=
              length_filter_lt_of_mem hseedNS (by simp [hseedcl])
            have h2 : (n :: rest).length ≤ fuel + 1 := hlen
            omega
          have hremsub : remaining ⊆ n :: rest := (List.filter_sublist _).subset
          have hremnd : (remaining.map Prod.fst).Nodup :=
            ((List.filter_sublist _).map Prod.fst).nodup hnd
          obtain ⟨ihmem, ihnd⟩ := ih t remaining hremlen hremnd
          have hemit : ∀ u, u ∈ emitted ↔ ∃ x ∈ cl, x.1 = u := by
            intro u
            constructor
            · intro hu
              rcases List.mem_cons.mp hu with hu | hu
              · exact ⟨seed, hseedcl, hu.symm⟩
              · obtain ⟨x, hx, hxu⟩ := List.mem_map.mp hu
                exact ⟨x, List.mem_of_mem_filter hx, hxu⟩
            · rintro ⟨x, hx, hxu⟩
              by_cases hxs : x = seed
              · subst hxs
                exact List.mem_cons.mpr (Or.inl hxu.symm)
              · refine List.mem_cons.mpr (Or.inr ?_)
                exact List.mem_map.mpr ⟨x, List.mem_filter.mpr ⟨hx, by simp [hxs]⟩, hxu⟩
          have hemitnd : emitted.Nodup := by
            refine List.nodup_cons.mpr ⟨?_, ?_⟩
            · intro hmem
              obtain ⟨x, hx, hxu⟩ := List.mem_map.mp hmem
              have hxcl := List.mem_of_mem_filter hx
              have hxne : x ≠ seed := by
                have := List.of_mem_filter hx
                simpa using this
              exact hxne (hinj x (hclNS hxcl) seed hseedNS hxu)
            · refine List.Nodup.map_on ?_ (hclnd.filter _)
              intro x hx y hy hxy
              exact hinj x (hclNS (List.mem_of_mem_filter hx)) y
                (hclNS (List.mem_of_mem_filter hy)) hxy
          have hcover : ∀ x, x ∈ n :: rest → x ∈ cl ∨ x ∈ remaining := by
            intro x hx
            by_cases hxc : x ∈ cl
            · exact Or.inl hxc
            · exact Or.inr (List.mem_filter.mpr ⟨hx, by simp [hxc]⟩)
          have hdisj : ∀ u, u ∈ emitted → u ∈ (clusterLoop t fuel remaining).flatMap id → False := by
            intro u hu1 hu2
            obtain ⟨x, hxcl, hxu⟩ := (hemit u).mp hu1
            obtain ⟨y, hy, hyu⟩ := List.mem_map.mp ((ihmem u).mp hu2)
            have hxy : x = y := hinj x (hclNS hxcl) y (hremsub hy) (by rw [hxu, hyu])
            have hynotcl : y ∉ cl := by
              have := List.of_mem_filter hy
              simpa using this
            exact hynotcl (hxy ▸ hxcl)
          constructor
          · intro u
            rw [hunfold]
            simp only [List.flatMap_cons, id]
            constructor
            · intro hu
              rcases List.mem_append.mp hu with hu | hu
              · obtain ⟨x, hxcl, hxu⟩ := (hemit u).mp hu
                exact List.mem_map.mpr ⟨x, hclNS hxcl, hxu⟩
              · obtain ⟨y, hy, hyu⟩ := List.mem_map.mp ((ihmem u).mp hu)
                exact List.mem_map.mpr ⟨y, hremsub hy, hyu⟩
            · intro hu
              obtain ⟨x, hx, hxu⟩ := List.mem_map.mp hu
              rcases hcover x hx with hxc | hxr
              · exact List.mem_append.mpr (Or.inl ((hemit u).mpr ⟨x, hxc, hxu⟩))
              · exact List.mem_append.mpr
                  (Or.inr ((ihmem u).mpr (List.mem_map.mpr ⟨x, hxr, hxu⟩)))
          · rw [hunfold]
            simp only [List.flatMap_cons, id]
            exact List.Nodup.append hemitnd ihnd (fun u hu1 hu2 => hdisj u hu1 hu2)

theorem cluster_sequences_mem_flat (seqs : List (List Char)) (t : Nat) :
    ∀ u, u ∈ (cluster_sequences seqs t).flatMap id ↔ u ∈ seqs := by
  cases seqs with
  | nil => simp [cluster_sequences]
  | cons a l =>
      intro u
      have hpos : (a :: l).length > 0 := by simp
      rw [cluster_sequences, if_pos hpos]
      have hnd : ((count_sequences (a :: l)).map Prod.fst).Nodup := by
        rw [count_sequences_keys]
        exact nodup_firstOccurrences _
      have := (clusterLoop_partition (count_sequences (a :: l)).length t
        (count_sequences (a :: l)) (Nat.le_refl _) hnd).1 u
      rw [umiClusterer]
      rw [this, count_sequences_keys]
      exact mem_firstOccurrences _ u

theorem cluster_sequences_nodup_flat (seqs : List (List Char)) (t : Nat) :
    ((cluster_sequences seqs t).flatMap id).Nodup := by
  cases seqs with
  | nil => simp [cluster_sequences]
  | cons a l =>
      have hpos : (a :: l).length > 0 := by simp
      rw [cluster_sequences, if_pos hpos]
      have hnd : ((count_sequences (a :: l)).map Prod.fst).Nodup := by
        rw [count_sequences_keys]
        exact nodup_firstOccurrences _
      exact (clusterLoop_partition (count_sequences (a :: l)).length t
        (count_sequences (a :: l)) (Nat.le_refl _) hnd).2

theorem cluster_sequences_head (seqs : List (List Char)) (t : Nat) (c : List (List Char))
    (hc : c ∈ cluster_sequences seqs t) :
    ∃ rep tail, c = rep :: tail ∧ rep ∈ seqs := by
  cases seqs with
  | nil => simp [cluster_sequences] at hc
  | cons a l =>
      have hpos : (a :: l).length > 0 := by simp
      rw [cluster_sequences, if_pos hpos, umiClusterer] at hc
      obtain ⟨rep, tail, hcrt, hrep⟩ := clusterLoop_head_mem _ t _ c hc
      refine ⟨rep, tail, hcrt, ?_⟩
      rw [count_sequences_keys] at hrep
      exact (mem_firstOccurrences _ rep).mp hrep

theorem mem_filter_by_attribute_self (read_list : List AlignedSegmentSummary)
    (r : AlignedSegmentSummary) (hr : r ∈ read_list) :
    r ∈ filter_by_attribute read_list r.umi := by
  refine List.mem_filter.mpr ⟨hr, ?_⟩
  simp [List.infix_rfl]

theorem ifPickBest (u : AlignedSegmentSummary) (us : List AlignedSegmentSummary) :
    (if (u :: us).length > 1 then pickBest u us else u) = pickBest u us := by
  cases us with
  | nil => simp [pickBest]
  | cons v vs => simp [pickBest]

theorem survivorOfCluster_some (read_list : List AlignedSegmentSummary)
    (rep : List Char) (tail : List (List Char)) (h : ∃ r ∈ read_list, r.umi = rep) :
    ∃ s, survivorOfCluster read_list (rep :: tail) = some s ∧
      s ∈ filter_by_attribute read_list rep ∧
      IsFirstMax s (filter_by_attribute read_list rep) := by
  obtain ⟨r, hr, hu⟩ := h
  subst hu
  have hmem : r ∈ filter_by_attribute read_list r.umi := mem_filter_by_attribute_self _ r hr
  cases hm : filter_by_attribute read_list r.umi with
  | nil => rw [hm] at hmem; simp at hmem
  | cons u us =>
      refine ⟨pickBest u us, ?_, ?_, ?_⟩
      · simp only [survivorOfCluster, hm]
        rw [ifPickBest]
      · exact pickBest_mem u us
      · exact pickBest_isFirstMax us u

theorem survivorsOfClusters_some (read_list : List AlignedSegmentSummary) :
    ∀ cs : List (List (List Char)),
      (∀ c ∈ cs, ∃ rep tail, c = rep :: tail ∧ ∃ r ∈ read_list, r.umi = rep) →
      ∃ survs, survivorsOfClusters read_list cs = some survs := by
  intro cs
  induction cs with
  | nil => intro _; exact ⟨[], rfl⟩
  | cons c cs ih =>
      intro h
      obtain ⟨rep, tail, hct, hex⟩ := h c (List.mem_cons_self _ _)
      subst hct
      obtain ⟨s, hs, -, -⟩ := survivorOfCluster_some read_list rep tail hex
      obtain ⟨ss, hss⟩ := ih (fun c hc => h c (List.mem_cons.mpr (Or.inr hc)))
      exact ⟨s :: ss, by simp [survivorsOfClusters, hs, hss]⟩

theorem mark_duplicates_by_umi_some (read_list : List AlignedSegmentSummary) (t : Nat) :
    ∃ survs, survivorsOfClusters read_list
        (cluster_sequences (read_list.map (fun r => r.umi)) t) = some survs ∧
      mark_duplicates_by_umi read_list t =
        some ((read_list.filter
          (fun r => decide (r.name ∉ survs.map (fun x => x.name)))).map (fun r => r.name)) := by
  have hheads : ∀ c ∈ cluster_sequences (read_list.map (fun r => r.umi)) t,
      ∃ rep tail, c = rep :: tail ∧ ∃ r ∈ read_list, r.umi = rep := by
    intro c hc
    obtain ⟨rep, tail, hct, hrep⟩ := cluster_sequences_head _ t c hc
    obtain ⟨r, hr, hru⟩ := List.mem_map.mp hrep
    exact ⟨rep, tail, hct, r, hr, hru⟩
  obtain ⟨survs, hsurvs⟩ := survivorsOfClusters_some read_list _ hheads
  exact ⟨survs, hsurvs, by simp [mark_duplicates_by_umi, hsurvs]⟩

theorem findDupsPositions_some (t : Nat) :
    ∀ ps : List (Nat × List AlignedSegmentSummary), ∃ d, findDupsPositions t ps = some d := by
  intro ps
  induction ps with
  | nil => exact ⟨[], rfl⟩
  | cons pe rest ih =>
      obtain ⟨p, cands⟩ := pe
      obtain ⟨ds, hds⟩ := ih
      by_cases hl : cands.length > 1
      · obtain ⟨survs, -, hmark⟩ := mark_duplicates_by_umi_some cands t
        refine ⟨((cands.filter
          (fun r => decide (r.name ∉ survs.map (fun x => x.name)))).map (fun r => r.name)) ++ ds, ?_⟩
        simp only [findDupsPositions]
        rw [if_pos hl, hmark, hds]
      · refine ⟨[] ++ ds, ?_⟩
        simp only [findDupsPositions]
        rw [if_neg hl, hds]

theorem find_duplicate_ids_some (aln_index : PosIdx) (t : Nat) :
    ∃ d, find_duplicate_ids aln_index t = some d := by
  induction aln_index with
  | nil => exact ⟨[], rfl⟩
  | cons re rest ih =>
      obtain ⟨ref, ps⟩ := re
      obtain ⟨ds, hds⟩ := ih
      obtain ⟨d, hd⟩ := findDupsPositions_some t ps
      exact ⟨d ++ ds, by simp [find_duplicate_ids, hd, hds]⟩

theorem sumsOfPositions_cons (p : Nat) (lst : List AlignedSegmentSummary)
    (rest : List (Nat × List AlignedSegmentSummary)) :
    sumsOfPositions ((p, lst) :: rest) = lst ++ sumsOfPositions rest := rfl

theorem sumsOfPosIdx_cons (r : List Char) (ps : List (Nat × List AlignedSegmentSummary))
    (rest : PosIdx) :
    sumsOfPosIdx ((r, ps) :: rest) = sumsOfPositions ps ++ sumsOfPosIdx rest := rfl

theorem mem_sumsOfPositions_add :
    ∀ (ps : List (Nat × List AlignedSegmentSummary)) (pos : Nat)
      (a b : AlignedSegmentSummary),
      b ∈ sumsOfPositions (addToPositions ps pos a) ↔ b ∈ sumsOfPositions ps ∨ b = a := by
  intro ps
  induction ps with
  | nil =>
      intro pos a b
      simp [addToPositions, sumsOfPositions]
  | cons pe rest ih =>
      intro pos a b
      obtain ⟨p, lst⟩ := pe
      by_cases hp : p = pos
      · simp only [addToPositions, if_pos hp, sumsOfPositions_cons, List.mem_append]
        simp [List.mem_append]
        tauto
      · simp only [addToPositions, if_neg hp, sumsOfPositions_cons, List.mem_append]
        rw [ih pos a b]
        tauto

theorem mem_sumsOfPosIdx_add :
    ∀ (idx : PosIdx) (ref : List Char) (pos : Nat) (a b : AlignedSegmentSummary),
      b ∈ sumsOfPosIdx (addToPosIdx idx ref pos a) ↔ b ∈ sumsOfPosIdx idx ∨ b = a := by
  intro idx
  induction idx with
  | nil =>
      intro ref pos a b
      simp [addToPosIdx, addToPositions, sumsOfPosIdx, sumsOfPositions]
  | cons re rest ih =>
      intro ref pos a b
      obtain ⟨r, ps⟩ := re
      by_cases hr : r = ref
      · simp only [addToPosIdx, if_pos hr, sumsOfPosIdx_cons, List.mem_append]
        rw [mem_sumsOfPositions_add ps pos a b]
        tauto
      · simp only [addToPosIdx, if_neg hr, sumsOfPosIdx_cons, List.mem_append]
        rw [ih ref pos a b]
        tauto

theorem mem_posIdxNames (idx : PosIdx) (n : List Char) :
    n ∈ posIdxNames idx ↔ ∃ b ∈ sumsOfPosIdx idx, b.name = n := by
  simp [posIdxNames, List.mem_map]

theorem pass1Step_r1_mem (u mc sl : Nat) (st : Pass1State) (read : AlignedSegment)
    (b : AlignedSegmentSummary) :
    b ∈ sumsOfPosIdx (pass1Step u mc sl st read).r1 ↔
      b ∈ sumsOfPosIdx st.r1 ∨
        (b = summarize read u mc sl ∧ (summarize read u mc sl).mate = 1 ∧
         (summarize read u mc sl).type = AlignmentType.SINGLE) := by
  by_cases h1 : (summarize read u mc sl).mate = 1
  · by_cases h2 : (summarize read u mc sl).type = AlignmentType.SINGLE
    · simp [pass1Step, h1, h2, mem_sumsOfPosIdx_add]
    · simp [pass1Step, h1, h2]
  · simp [pass1Step, h1]

theorem pass1Step_multi_mem (u mc sl : Nat) (st : Pass1State) (read : AlignedSegment)
    (b : AlignedSegmentSummary) :
    b ∈ (pass1Step u mc sl st read).multi ↔
      b ∈ st.multi ∨
        (b = summarize read u mc sl ∧ (summarize read u mc sl).mate = 1 ∧
         (summarize read u mc sl).type ≠ AlignmentType.SINGLE) := by
  by_cases h1 : (summarize read u mc sl).mate = 1
  · by_cases h2 : (summarize read u mc sl).type = AlignmentType.SINGLE
    · simp [pass1Step, h1, h2]
    · simp [pass1Step, h1, h2]
  · simp [pass1Step, h1]

theorem pass1Step_seen_sub (u mc sl : Nat) (st : Pass1State) (read : AlignedSegment) :
    st.seen ⊆ (pass1Step u mc sl st read).seen := by
  by_cases h1 : (summarize read u mc sl).mate = 1
  · by_cases h2 : (summarize read u mc sl).type = AlignmentType.SINGLE
    · intro n hn
      simp [pass1Step, h1, h2, hn]
    · intro n hn
      simp [pass1Step, h1, h2, hn]
  · simp [pass1Step, h1]

theorem pass1Step_name_seen (u mc sl : Nat) (st : Pass1State) (read : AlignedSegment)
    (h1 : (summarize read u mc sl).mate = 1) :
    (summarize read u mc sl).name ∈ (pass1Step u mc sl st read).seen := by
  by_cases h2 : (summarize read u mc sl).type = AlignmentType.SINGLE
  · simp [pass1Step, h1, h2]
  · simp [pass1Step, h1, h2]

theorem pass1Step_seen_mem (u mc sl : Nat) (st : Pass1State) (read : AlignedSegment)
    (n : List Char) :
    n ∈ (pass1Step u mc sl st read).seen ↔
      n ∈ st.seen ∨
        ((summarize read u mc sl).mate = 1 ∧ n = (summarize read u mc sl).name) := by
  by_cases h1 : (summarize read u mc sl).mate = 1
  · by_cases h2 : (summarize read u mc sl).type = AlignmentType.SINGLE
    · simp [pass1Step, h1, h2]
    · simp [pass1Step, h1, h2]
  · simp [pass1Step, h1]

theorem pass1_seen_sub (u mc sl : Nat) :
    ∀ (l : List AlignedSegment) (st : Pass1State), st.seen ⊆ (pass1 u mc sl st l).seen := by
  intro l
  induction l with
  | nil => intro st; exact fun n hn => hn
  | cons read rest ih =>
      intro st
      exact fun n hn => ih _ (pass1Step_seen_sub u mc sl st read hn)

theorem pass1_seen_from (u mc sl : Nat) :
    ∀ (l : List AlignedSegment) (st : Pass1State) (n : List Char),
      n ∈ (pass1 u mc sl st l).seen →
      n ∈ st.seen ∨
        ∃ read ∈ l, (summarize read u mc sl).mate = 1 ∧
          (summarize read u mc sl).name = n := by
  intro l
  induction l with
  | nil => intro st n hn; exact Or.inl hn
  | cons read rest ih =>
      intro st n hn
      rcases ih (pass1Step u mc sl st read) n hn with hn | ⟨r, hr, hm, hname⟩
      · rcases (pass1Step_seen_mem u mc sl st read n).mp hn with hn | ⟨hm, hname⟩
        · exact Or.inl hn
        · exact Or.inr ⟨read, List.mem_cons_self _ _, hm, hname.symm⟩
      · exact Or.inr ⟨r, List.mem_cons.mpr (Or.inr hr), hm, hname⟩

theorem pass1_r1_types (u mc sl : Nat) :
    ∀ (l : List AlignedSegment) (st : Pass1State),
      (∀ b ∈ sumsOfPosIdx st.r1, b.mate = 1 ∧ b.type = AlignmentType.SINGLE) →
      ∀ b ∈ sumsOfPosIdx (pass1 u mc sl st l).r1,
        b.mate = 1 ∧ b.type = AlignmentType.SINGLE := by
  intro l
  induction l with
  | nil => intro st h; exact h
  | cons read rest ih =>
      intro st h
      refine ih _ ?_
      intro b hb
      rcases (pass1Step_r1_mem u mc sl st read b).mp hb with hb | ⟨hbe, hm, ht⟩
      · exact h b hb
      · exact ⟨hbe ▸ hm, hbe ▸ ht⟩

theorem pass1_multi_mate (u mc sl : Nat) :
    ∀ (l : List AlignedSegment) (st : Pass1State),
      (∀ b ∈ st.multi, b.mate = 1) →
      ∀ b ∈ (pass1 u mc sl st l).multi, b.mate = 1 := by
  intro l
  induction l with
  | nil => intro st h; exact h
  | cons read rest ih =>
      intro st h
      refine ih _ ?_
      intro b hb
      rcases (pass1Step_multi_mem u mc sl st read b).mp hb with hb | ⟨hbe, hm, -⟩
      · exact h b hb
      · exact hbe ▸ hm

theorem pass1_r1_names_seen (u mc sl : Nat) :
    ∀ (l : List AlignedSegment) (st : Pass1State),
      (∀ b ∈ sumsOfPosIdx st.r1, b.name ∈ st.seen) →
      ∀ b ∈ sumsOfPosIdx (pass1 u mc sl st l).r1, b.name ∈ (pass1 u mc sl st l).seen := by
  intro l
  induction l with
  | nil => intro st h; exact h
  | cons read rest ih =>
      intro st h
      refine ih _ ?_
      intro b hb
      rcases (pass1Step_r1_mem u mc sl st read b).mp hb with hb | ⟨hbe, hm, -⟩
      · exact pass1Step_seen_sub u mc sl st read (h b hb)
      · exact hbe ▸ pass1Step_name_seen u mc sl st read hm

theorem pass1_records_seen (u mc sl : Nat) :
    ∀ (l : List AlignedSegment) (st : Pass1State) (read : AlignedSegment),
      read ∈ l → (summarize read u mc sl).mate = 1 →
      (summarize read u mc sl).name ∈ (pass1 u mc sl st l).seen := by
  intro l
  induction l with
  | nil => intro st read hmem; simp at hmem
  | cons a rest ih =>
      intro st read hmem hm
      rcases List.mem_cons.mp hmem with hmem | hmem
      · subst hmem
        exact pass1_seen_sub u mc sl rest _ (pass1Step_name_seen u mc sl st read hm)
      · exact ih _ read hmem hm

theorem pass2Step_r2_mem (u mc sl : Nat) (seen : List (List Char)) (st : Pass2State)
    (read : AlignedSegment) (b : AlignedSegmentSummary) :
    b ∈ sumsOfPosIdx (pass2Step u mc sl seen st read).r2 ↔
      b ∈ sumsOfPosIdx st.r2 ∨
        (b = summarize read u mc sl ∧
         ((summarize read u mc sl).mate = 2 ∧ (summarize read u mc sl).name ∉ seen) ∧
         (summarize read u mc sl).type = AlignmentType.SINGLE) := by
  by_cases h1 : (summarize read u mc sl).mate = 2 ∧ (summarize read u mc sl).name ∉ seen
  · by_cases h2 : (summarize read u mc sl).type = AlignmentType.SINGLE
    · simp [pass2Step, h1, h2, mem_sumsOfPosIdx_add]
    · simp [pass2Step, h1, h2]
  · simp [pass2Step, h1]

theorem pass2Step_multi_mem (u mc sl : Nat) (seen : List (List Char)) (st : Pass2State)
    (read : AlignedSegment) (b : AlignedSegmentSummary) :
    b ∈ (pass2Step u mc sl seen st read).multi ↔
      b ∈ st.multi ∨
        (b = summarize read u mc sl ∧
         ((summarize read u mc sl).mate = 2 ∧ (summarize read u mc sl).name ∉ seen) ∧
         (summarize read u mc sl).type ≠ AlignmentType.SINGLE) := by
  by_cases h1 : (summarize read u mc sl).mate = 2 ∧ (summarize read u mc sl).name ∉ seen
  · by_cases h2 : (summarize read u mc sl).type = AlignmentType.SINGLE
    · simp [pass2Step, h1, h2]
    · simp [pass2Step, h1, h2]
  · simp [pass2Step, h1]

theorem pass2_r2_not_seen (u mc sl : Nat) (seen : List (List Char)) :
    ∀ (l : List AlignedSegment) (st : Pass2State),
      (∀ b ∈ sumsOfPosIdx st.r2, b.name ∉ seen) →
      ∀ b ∈ sumsOfPosIdx (pass2 u mc sl seen st l).r2, b.name ∉ seen := by
  intro l
  induction l with
  | nil => intro st h; exact h
  | cons read rest ih =>
      intro st h
      refine ih _ ?_
      intro b hb
      rcases (pass2Step_r2_mem u mc sl seen st read b).mp hb with hb | ⟨hbe, ⟨-, hns⟩, -⟩
      · exact h b hb
      · exact hbe ▸ hns

theorem pass2_multi_mate (u mc sl : Nat) (seen : List (List Char)) :
    ∀ (l : List AlignedSegment) (st : Pass2State),
      (∀ b ∈ st.multi, b.mate = 1 ∨ b.mate = 2) →
      ∀ b ∈ (pass2 u mc sl seen st l).multi, b.mate = 1 ∨ b.mate = 2 := by
  intro l
  induction l with
  | nil => intro st h; exact h
  | cons read rest ih =>
      intro st h
      refine ih _ ?_
      intro b hb
      rcases (pass2Step_multi_mem u mc sl seen st read b).mp hb with hb | ⟨hbe, ⟨hm, -⟩, -⟩
      · exact h b hb
      · exact Or.inr (hbe ▸ hm)

/-- Claim C1, counterexample.  In the bucket `[exC1a, exC1b]` the UMIs
`AAAA` and `AAAT` form a single cluster whose members are both UMIs,
with representative `AAAA`.  The claim says the survivor is the
maximum-score member of the cluster subset (`exC1b`, score 99 > 10),
but the code filters candidates by the representative UMI only
(`r.umi in c[0]`, a bytes-substring test), so it keeps `exC1a` and
reports the name of the higher-scoring `exC1b` as the duplicate. -/
theorem c1_counterexample :
    cluster_sequences [['A','A','A','A'], ['A','A','A','T']] 1 =
      [[['A','A','A','A'], ['A','A','A','T']]] ∧
    exC1b.umi ∈ [['A','A','A','A'], ['A','A','A','T']] ∧
    exC1b.score > exC1a.score ∧
    mark_duplicates_by_umi [exC1a, exC1b] 1 = some [['b']] ∧
    exC1b.name = ['b'] := by
  decide

/-- Claim C1, amended: for every bucket and every cluster returned by
the clusterer, the code selects the subset of candidates whose UMI is a
contiguous substring of (for equal-length UMIs: equal to) the cluster's
first, representative UMI `c[0]`; the survivor of that subset is its
first maximum-score element, and the reported duplicates are exactly
the names of the bucket candidates whose name is not a survivor
name. -/
theorem c1_amended (read_list : List AlignedSegmentSummary) (t : Nat) :
    (∀ c ∈ cluster_sequences (read_list.map (fun r => r.umi)) t,
      ∃ rep tail s, c = rep :: tail ∧ rep ∈ read_list.map (fun r => r.umi) ∧
        survivorOfCluster read_list c = some s ∧
        s ∈ filter_by_attribute read_list rep ∧
        IsFirstMax s (filter_by_attribute read_list rep)) ∧
    (∃ survs, survivorsOfClusters read_list
        (cluster_sequences (read_list.map (fun r => r.umi)) t) = some survs ∧
      mark_duplicates_by_umi read_list t =
        some ((read_list.filter
          (fun r => decide (r.name ∉ survs.map (fun x => x.name)))).map
            (fun r => r.name))) := by
  constructor
  · intro c hc
    obtain ⟨rep, tail, hct, hrep⟩ := cluster_sequences_head _ t c hc
    obtain ⟨r, hr, hru⟩ := List.mem_map.mp hrep
    obtain ⟨s, hs, hmem, hmax⟩ := survivorOfCluster_some read_list rep tail ⟨r, hr, hru⟩
    subst hct
    exact ⟨rep, tail, s, rfl, hrep, hs, hmem, hmax⟩
  · exact mark_duplicates_by_umi_some read_list t

/-- Claim C1, witness for the amended theorem at the concrete bucket
`[exC1a, exC1b]` and its single returned cluster. -/
theorem c1_amended_witness :
    ∃ rep tail s,
      ([['A','A','A','A'], ['A','A','A','T']] : List (List Char)) = rep :: tail ∧
      rep ∈ [exC1a, exC1b].map (fun r => r.umi) ∧
      survivorOfCluster [exC1a, exC1b] [['A','A','A','A'], ['A','A','A','T']] = some s ∧
      s ∈ filter_by_attribute ([exC1a, exC1b]) rep ∧
      IsFirstMax s (filter_by_attribute ([exC1a, exC1b]) rep) :=
  (c1_amended [exC1a, exC1b] 1).1 [['A','A','A','A'], ['A','A','A','T']] (by decide)

/-- Claim C2, counterexample.  `exC2rec` is mapped, UNIQUE, and flagged
neither first nor second in pair (`get_mate` yields -1).  The claim
says Pass 1 routes it like a first mate into
`r1_reads_by_position[reference][start]` and records its name as seen;
the code checks `aln.mate == 1` only, so the record is dropped: the
index is empty and the seen count is 0. -/
theorem c2_counterexample :
    get_mate exC2rec = -1 ∧
    get_type exC2rec 5 = AlignmentType.SINGLE ∧
    (buildAlignmentIndex [exC2rec] 2 5 20).r1_reads_by_position = [] ∧
    (buildAlignmentIndex [exC2rec] 2 5 20).multimappers = [] ∧
    (buildAlignmentIndex [exC2rec] 2 5 20).r1_counts = 0 ∧
    (buildAlignmentIndex [exC2rec] 2 5 20).total = 0 := by
  decide

/-- Claim C2, amended: Pass 1 routes only records whose mate flag is
FIRST; UNPAIRED records are routed nowhere.  Consequently every summary
stored in `r1_reads_by_position` has mate = FIRST (and kind UNIQUE),
every summary in the multimapper pool has mate FIRST or SECOND — never
UNPAIRED — and every fragment name in the Pass-1 seen set was
contributed by a mapped FIRST-mate record, so an UNPAIRED record never
records its name there. -/
theorem c2_amended (bam : List AlignedSegment) (u mc sl : Nat) :
    (∀ a ∈ sumsOfPosIdx (buildAlignmentIndex bam u mc sl).r1_reads_by_position,
      a.mate = 1 ∧ a.type = AlignmentType.SINGLE) ∧
    (∀ a ∈ (buildAlignmentIndex bam u mc sl).multimappers,
      a.mate = 1 ∨ a.mate = 2) ∧
    (∀ n ∈ (pass1 u mc sl ⟨[], [], []⟩ (get_mapped_segments bam)).seen,
      ∃ read ∈ bam, read.is_unmapped = false ∧
        (summarize read u mc sl).mate = 1 ∧ (summarize read u mc sl).name = n) := by
  refine ⟨?_, ?_, ?_⟩
  · have hr1 : (buildAlignmentIndex bam u mc sl).r1_reads_by_position =
        (pass1 u mc sl ⟨[], [], []⟩ (get_mapped_segments bam)).r1 := rfl
    rw [hr1]
    refine pass1_r1_types u mc sl _ _ ?_
    intro b hb
    simp [sumsOfPosIdx] at hb
  · have hm : (buildAlignmentIndex bam u mc sl).multimappers =
        (pass2 u mc sl (pass1 u mc sl ⟨[], [], []⟩ (get_mapped_segments bam)).seen
          ⟨[], (pass1 u mc sl ⟨[], [], []⟩ (get_mapped_segments bam)).multi, []⟩
          (get_mapped_segments bam)).multi := rfl
    rw [hm]
    refine pass2_multi_mate u mc sl _ _ _ ?_
    intro b hb
    refine Or.inl (pass1_multi_mate u mc sl _ _ ?_ b hb)
    intro b2 hb2
    simp at hb2
  · intro n hn
    rcases pass1_seen_from u mc sl (get_mapped_segments bam) ⟨[], [], []⟩ n hn with
      hn | ⟨read, hread, hm, hname⟩
    · simp at hn
    · obtain ⟨hbam, hmap⟩ := List.mem_filter.mp hread
      refine ⟨read, hbam, ?_, hm, hname⟩
      simpa using hmap

/-- Claim C2, witness for the amended theorem: the multimapper stored
for the concrete first-mate record `exC2w` has mate FIRST or SECOND. -/
theorem c2_amended_witness :
    (summarize exC2w 2 5 20).mate = 1 ∨ (summarize exC2w 2 5 20).mate = 2 :=
  (c2_amended [exC2w] 2 5 20).2.1 (summarize exC2w 2 5 20) (by decide)

/-- Claim C3, counterexample.  Fragment `n` has a multi-mapping first
mate (`exC3rec1`) and a uniquely-mapped second mate (`exC3rec2`).  The
claim says the second mate is indexed into
`r2_only_reads_by_position[reference][start]`; but Pass 1 records
multi-mapping first mates in the seen set, so Pass 2 skips the second
mate: the R2-only index stays empty. -/
theorem c3_counterexample :
    get_type exC3rec1 5 = AlignmentType.MULTI ∧
    (summarize exC3rec1 2 5 20).mate = 1 ∧
    (summarize exC3rec2 2 5 20).mate = 2 ∧
    (summarize exC3rec1 2 5 20).name = (summarize exC3rec2 2 5 20).name ∧
    (buildAlignmentIndex [exC3rec1, exC3rec2] 2 5 20).r2_only_reads_by_position = [] ∧
    (buildAlignmentIndex [exC3rec1, exC3rec2] 2 5 20).r2_counts = 0 := by
  decide

/-- Claim C3, amended: a first-mate record of any kind — including a
multi-mapping one — is recorded in the Pass-1 seen set, so no summary
whose fragment has a mapped first mate is ever indexed into
`r2_only_reads_by_position`. -/
theorem c3_amended (bam : List AlignedSegment) (u mc sl : Nat) (read : AlignedSegment)
    (h1 : read ∈ bam) (h2 : read.is_unmapped = false)
    (h3 : (summarize read u mc sl).mate = 1) :
    (summarize read u mc sl).name ∉
      posIdxNames (buildAlignmentIndex bam u mc sl).r2_only_reads_by_position := by
  intro hmem
  have hmapped : read ∈ get_mapped_segments bam :=
    List.mem_filter.mpr ⟨h1, by simp [h2]⟩
  have hseen := pass1_records_seen u mc sl (get_mapped_segments bam) ⟨[], [], []⟩ read hmapped h3
  have hr2 : (buildAlignmentIndex bam u mc sl).r2_only_reads_by_position =
      (pass2 u mc sl (pass1 u mc sl ⟨[], [], []⟩ (get_mapped_segments bam)).seen
        ⟨[], (pass1 u mc sl ⟨[], [], []⟩ (get_mapped_segments bam)).multi, []⟩
        (get_mapped_segments bam)).r2 := rfl
  rw [hr2, mem_posIdxNames] at hmem
  obtain ⟨b, hb, hbn⟩ := hmem
  have hnot := pass2_r2_not_seen u mc sl
    (pass1 u mc sl ⟨[], [], []⟩ (get_mapped_segments bam)).seen
    (get_mapped_segments bam)
    ⟨[], (pass1 u mc sl ⟨[], [], []⟩ (get_mapped_segments bam)).multi, []⟩
    (by intro b2 hb2; simp [sumsOfPosIdx] at hb2) b hb
  exact hnot (hbn ▸ hseen)

/-- Claim C3, witness for the amended theorem at the concrete input:
the fragment name of the multi-mapping first mate `exC3rec1` is absent
from the R2-only index. -/
theorem c3_amended_witness :
    (summarize exC3rec1 2 5 20).name ∉
      posIdxNames (buildAlignmentIndex [exC3rec1, exC3rec2] 2 5 20).r2_only_reads_by_position :=
  c3_amended [exC3rec1, exC3rec2] 2 5 20 exC3rec1 (by decide) rfl (by decide)

/-- Claim C4, counterexample.  For the malformed query name `ab` with
`umi_length = 6` (UMI suffix longer than the name, no delimiter),
summarization does not fail: Python slicing silently truncates, the
derived name is empty and the derived UMI is the whole query name.  No
`InputError` is raised anywhere in the code. -/
theorem c4_counterexample :
    exC4rec.query_name = ['a','b'] ∧
    get_name exC4rec.query_name 6 = [] ∧
    get_umi exC4rec.query_name 6 = ['a','b'] ∧
    (summarize exC4rec 6 5 20).name = [] ∧
    (summarize exC4rec 6 5 20).umi = ['a','b'] := by
  decide

/-- Claim C4, amended: summarization never fails on a malformed query
name; whenever `umi_length ≥ len(query_name)` the slices silently
truncate — the derived name is empty and the derived UMI is the entire
query name. -/
theorem c4_amended (query_name : List Char) (umi_length : Nat)
    (h : query_name.length ≤ umi_length) :
    get_name query_name umi_length = [] ∧ get_umi query_name umi_length = query_name := by
  constructor
  · rw [get_name]
    have hz : query_name.length - (umi_length + 1) = 0 := by omega
    rw [hz]
    exact List.take_zero _
  · rw [get_umi]
    by_cases hu : umi_length = 0
    · rw [if_pos hu]
    · rw [if_neg hu]
      have hz : query_name.length - umi_length = 0 := by omega
      rw [hz]
      exact List.drop_zero _

/-- Claim C4, witness for the amended theorem at the concrete malformed
name `ab` with `umi_length = 6`. -/
theorem c4_amended_witness :
    (['a','b'] : List Char).length ≤ 6 ∧
    get_name ['a','b'] 6 = [] ∧ get_umi ['a','b'] 6 = ['a','b'] :=
  ⟨by decide, (c4_amended ['a','b'] 6 (by decide)).1, (c4_amended ['a','b'] 6 (by decide)).2⟩

/-- Claim C5: with `total == 0`, `fraction_duplication` raises the
division-by-zero error (the spec's reporting-time EmptyInputError) and
never returns a value — in particular never a silent 0. -/
theorem c5_fraction_duplication_total_zero (s : DedupSummary) (h : s.total = 0) :
    fraction_duplication s = Except.error PyExn.zeroDivisionError ∧
    ∀ q : Rat, fraction_duplication s ≠ Except.ok q := by
  constructor
  · rw [fraction_duplication, if_pos h]
  · intro q
    rw [fraction_duplication, if_pos h]
    intro hq
    cases hq

/-- Claim C5, witness at the all-zero summary. -/
theorem c5_witness :
    ({ total := 0, total_dups := 0, r1_dups := 0, r2_only_dups := 0,
       multi_dups := 0 } : DedupSummary).total = 0 ∧
    fraction_duplication
      { total := 0, total_dups := 0, r1_dups := 0, r2_only_dups := 0, multi_dups := 0 } =
      Except.error PyExn.zeroDivisionError :=
  ⟨rfl, (c5_fraction_duplication_total_zero _ rfl).1⟩

/-- Claim C6, counterexample.  Two mapped first-mate records share the
fragment name `f`: `exC6recA` is UNIQUE and lands in
`r1_reads_by_position`, `exC6recB` is MULTI and lands in the
multimapper pool.  The name `f` therefore appears in two of the three
pools under the same FIRST-mate role, contradicting the claimed
at-most-one invariant. -/
theorem c6_counterexample :
    (summarize exC6recA 2 5 20).mate = 1 ∧
    (summarize exC6recB 2 5 20).mate = 1 ∧
    posIdxNames
      (buildAlignmentIndex [exC6recA, exC6recB] 2 5 20).r1_reads_by_position = [['f']] ∧
    (buildAlignmentIndex [exC6recA, exC6recB] 2 5 20).multimappers.map
      (fun a => a.name) = [['f']] := by
  decide

/-- Claim C6, amended: the r1/r2-only exclusivity does hold — no
fragment name indexed in `r1_reads_by_position` ever appears in
`r2_only_reads_by_position` — but a name may appear in both a
positional bucket and the multimapper pool under the same mate role
when several records share the name. -/
theorem c6_amended (bam : List AlignedSegment) (u mc sl : Nat) (n : List Char)
    (h : n ∈ posIdxNames (buildAlignmentIndex bam u mc sl).r1_reads_by_position) :
    n ∉ posIdxNames (buildAlignmentIndex bam u mc sl).r2_only_reads_by_position := by
  intro h2
  have hr1 : (buildAlignmentIndex bam u mc sl).r1_reads_by_position =
      (pass1 u mc sl ⟨[], [], []⟩ (get_mapped_segments bam)).r1 := rfl
  have hr2 : (buildAlignmentIndex bam u mc sl).r2_only_reads_by_position =
      (pass2 u mc sl (pass1 u mc sl ⟨[], [], []⟩ (get_mapped_segments bam)).seen
        ⟨[], (pass1 u mc sl ⟨[], [], []⟩ (get_mapped_segments bam)).multi, []⟩
        (get_mapped_segments bam)).r2 := rfl
  rw [hr1, mem_posIdxNames] at h
  rw [hr2, mem_posIdxNames] at h2
  obtain ⟨b1, hb1, hn1⟩ := h
  obtain ⟨b2, hb2, hn2⟩ := h2
  have hseen : b1.name ∈ (pass1 u mc sl ⟨[], [], []⟩ (get_mapped_segments bam)).seen :=
    pass1_r1_names_seen u mc sl (get_mapped_segments bam) ⟨[], [], []⟩
      (by intro b hb; simp [sumsOfPosIdx] at hb) b1 hb1
  have hnot : b2.name ∉ (pass1 u mc sl ⟨[], [], []⟩ (get_mapped_segments bam)).seen :=
    pass2_r2_not_seen u mc sl _ (get_mapped_segments bam)
      ⟨[], (pass1 u mc sl ⟨[], [], []⟩ (get_mapped_segments bam)).multi, []⟩
      (by intro b hb; simp [sumsOfPosIdx] at hb) b2 hb2
  apply hnot
  rw [hn2, ← hn1]
  exact hseen

/-- Claim C6, witness for the amended theorem: the fragment name `f`,
indexed in r1 for the concrete single-record input, is absent from the
R2-only index. -/
theorem c6_amended_witness :
    (['f'] : List Char) ∉
      posIdxNames (buildAlignmentIndex [exC6recA] 2 5 20).r2_only_reads_by_position :=
  c6_amended [exC6recA] 2 5 20 ['f'] (by decide)

/-- Claim C7: `deduplicate` always returns a summary whose `total_dups`
is the cardinality of the union, as fragment-name sets, of the R1
duplicate names and the R2-only duplicate names, and whose `multi_dups`
is 0. -/
theorem c7_deduplicate_aggregation (u mc sl t sm : Nat) (bam : List AlignedSegment) :
    ∃ r1_dups r2_dups,
      find_duplicate_ids (buildAlignmentIndex bam u mc sl).r1_reads_by_position t =
        some r1_dups ∧
      find_duplicate_ids (buildAlignmentIndex bam u mc sl).r2_only_reads_by_position t =
        some r2_dups ∧
      deduplicate u mc sl t sm bam =
        some { total := (buildAlignmentIndex bam u mc sl).total
               total_dups := (r1_dups.toFinset ∪ r2_dups.toFinset).card
               r1_dups := r1_dups.length
               r2_only_dups := r2_dups.length
               multi_dups := 0 } := by
  obtain ⟨r1d, h1⟩ :=
    find_duplicate_ids_some (buildAlignmentIndex bam u mc sl).r1_reads_by_position t
  obtain ⟨r2d, h2⟩ :=
    find_duplicate_ids_some (buildAlignmentIndex bam u mc sl).r2_only_reads_by_position t
  refine ⟨r1d, r2d, h1, h2, ?_⟩
  simp only [deduplicate]
  rw [h1, h2]
  simp [List.toFinset_append]

/-- Claim C8: the spec-modelled directional clusterer partitions the
input UMIs exactly — the flattened clusters contain precisely the input
UMI set, with no UMI lost and none appearing twice across (or within)
clusters — and the empty input yields no clusters. -/
theorem c8_cluster_partition (seqs : List (List Char)) (t : Nat) :
    (∀ u, u ∈ (cluster_sequences seqs t).flatMap id ↔ u ∈ seqs) ∧
    ((cluster_sequences seqs t).flatMap id).Nodup ∧
    cluster_sequences [] t = [] :=
  ⟨cluster_sequences_mem_flat seqs t, cluster_sequences_nodup_flat seqs t, rfl⟩

/-- Claim C9: duplicate resolution is a deterministic function of the
index contents — two runs on the same index give the same result — and
the survivor tie-break is deterministic: `pick_best` returns the first
maximum-score element of its input. -/
theorem c9_deterministic (aln_index : PosIdx) (t : Nat) :
    find_duplicate_ids aln_index t = find_duplicate_ids aln_index t ∧
    ∀ (hd : AlignedSegmentSummary) (tl : List AlignedSegmentSummary),
      pickBest hd tl ∈ hd :: tl ∧ IsFirstMax (pickBest hd tl) (hd :: tl) :=
  ⟨rfl, fun hd tl => ⟨pickBest_mem hd tl, pickBest_isFirstMax tl hd⟩⟩

/-- Claim C10: duplicate reporting is keyed by fragment name: a name is
reported exactly when some candidate bears it and no survivor bears it;
consequently, if a candidate shares its name with any survivor, that
name is never reported. -/
theorem c10_name_keyed (read_list : List AlignedSegmentSummary) (t : Nat)
    (survs : List AlignedSegmentSummary) (d : List (List Char))
    (hs : survivorsOfClusters read_list
      (cluster_sequences (read_list.map (fun r => r.umi)) t) = some survs)
    (hd : mark_duplicates_by_umi read_list t = some d) :
    (∀ n, n ∈ d ↔ ((∃ r ∈ read_list, r.name = n) ∧ ∀ s ∈ survs, s.name ≠ n)) ∧
    (∀ r ∈ read_list, ∀ s ∈ survs, s.name = r.name → r.name ∉ d) := by
  have hd2 : d = (read_list.filter
      (fun r => decide (r.name ∉ survs.map (fun x => x.name)))).map (fun r => r.name) := by
    obtain ⟨survs2, hs2, hmark⟩ := mark_duplicates_by_umi_some read_list t
    rw [hs] at hs2
    injection hs2 with he
    rw [hd] at hmark
    injection hmark with he2
    rw [he]
    exact he2
  subst hd2
  have hmem : ∀ n, (n ∈ (read_list.filter
      (fun r => decide (r.name ∉ survs.map (fun x => x.name)))).map (fun r => r.name)) ↔
      ((∃ r ∈ read_list, r.name = n) ∧ ∀ s ∈ survs, s.name ≠ n) := by
    intro n
    simp only [List.mem_map, List.mem_filter, decide_eq_true_eq]
    constructor
    · rintro ⟨r, ⟨hr, hnot⟩, rfl⟩
      refine ⟨⟨r, hr, rfl⟩, ?_⟩
      intro s hsv hne
      exact hnot ⟨s, hsv, hne⟩
    · rintro ⟨⟨r, hr, rfl⟩, hall⟩
      refine ⟨r, ⟨hr, ?_⟩, rfl⟩
      rintro ⟨s, hsv, hsn⟩
      exact hall s hsv hsn
  refine ⟨hmem, ?_⟩
  intro r hr s hsv hname hmem2
  exact ((hmem r.name).mp hmem2).2 s hsv hname

/-- Claim C10, witness at the concrete bucket `[exC10a, exC10b, exC10c]`
where `exC10a` and the survivor `exC10b` share the name `x`: the name
`x` is not reported even though the record `exC10a` lost. -/
theorem c10_witness : exC10a.name ∉ ([['y']] : List (List Char)) :=
  (c10_name_keyed [exC10a, exC10b, exC10c] 1 [exC10b] [['y']]
    (by decide) (by decide)).2 exC10a (by decide) exC10b (by decide) (by decide)
